import Mathlib

/-!
Verification of the saramin job-board backend against its specification.

The relevant JavaScript route handlers, Sequelize models and the crawler's
deadline normalizer are shallowly embedded as pure Lean functions over an
explicit database state.  Strings keep the exact literals used by the source
(`"지원 완료"`, `"지원 취소"`, `"면접 완료"`).  Lists model SQL tables; `find?`
models Sequelize `findOne` (first row matching the WHERE clause, in table
order) and mapping over the table by primary key models `instance.save()`.
-/

set_option maxHeartbeats 1000000

namespace Saramin

/-- Row of the `applications` table (models/application model).
`createdAt` is a logical timestamp used for the `ORDER BY createdAt` clause. -/
structure Application where
  id : Nat
  userId : Nat
  jobId : Nat
  resume : Option String
  status : String
  createdAt : Nat
deriving Repr, DecidableEq

/-- Row of the `jobs` table (models/job model).  `techStack` is stored as a
single string column (the crawler joins the parsed spans with a comma and the
MySQL column coerces a JS array the same way). -/
structure Job where
  id : Nat
  title : String
  company : String
  location : String
  experience : String
  education : String
  employmentType : String
  deadline : String
  techStack : String
  salary : Int
  description : String
  link : String
  views : Nat
deriving Repr, DecidableEq

/-- Row of the `users` table (models/user.js).  `role` is a plain string
column with default `"user"`; no enum constraint exists in the model. -/
structure User where
  id : Nat
  email : String
  password : String
  name : String
  role : String
deriving Repr, DecidableEq

/-- Row of the `interviews` table (models/interview model). -/
structure Interview where
  id : Nat
  applicationId : Nat
  userId : Nat
  interview_date : String
  interview_status : String
  feedback : Option String
deriving Repr, DecidableEq

/-- Row of the `jobreviews` table (JobReview model). -/
structure JobReview where
  id : Nat
  jobId : Nat
  userId : Nat
  rating : Int
  review_text : Option String
deriving Repr, DecidableEq

/-- The relational store, plus auto-increment counters and a logical clock. -/
structure Db where
  users : List User
  jobs : List Job
  apps : List Application
  interviews : List Interview
  reviews : List JobReview
  nextAppId : Nat
  nextInterviewId : Nat
  nextJobId : Nat
  nextReviewId : Nat
  now : Nat
deriving Repr, DecidableEq

/-- HTTP status code of a handler's JSON reply. -/
structure Resp where
  code : Nat
deriving Repr, DecidableEq

/-- `Job.findByPk(jobId)`. -/
def findJob (db : Db) (jid : Nat) : Option Job :=
  db.jobs.find? (fun j => j.id == jid)

/-- `Application.findOne({ where: { userId, jobId } })`. -/
def findApplication (apps : List Application) (uid jid : Nat) : Option Application :=
  apps.find? (fun a => a.userId == uid && a.jobId == jid)

/-- `existingApplication.save()`: persist an updated row by primary key. -/
def saveApplication (apps : List Application) (a : Application) : List Application :=
  apps.map (fun x => if x.id == a.id then a else x)

/-- `POST /applications` (routes/applications, `router.post('/')`).
`jobId = none` models an absent body field; `some 0` is also rejected because
the JS guard `if (!jobId)` treats `0` as falsy. -/
def applicationsPost (db : Db) (uid : Nat) (jobId : Option Nat)
    (resume : Option String) : Resp × Db :=
  match jobId with
  | none => (⟨400⟩, db)
  | some jid =>
    if jid == 0 then (⟨400⟩, db)
    else
      match findJob db jid with
      | none => (⟨404⟩, db)
      | some _ =>
        match findApplication db.apps uid jid with
        | some ex =>
          if ex.status == "지원 취소" then
            (⟨200⟩, { db with apps := saveApplication db.apps { ex with status := "지원 완료" } })
          else
            (⟨400⟩, db)
        | none =>
          (⟨201⟩,
            { db with
              apps := db.apps ++ [⟨db.nextAppId, uid, jid, resume, "지원 완료", db.now⟩],
              nextAppId := db.nextAppId + 1,
              now := db.now + 1 })

/-- `DELETE /applications/:id` (routes/applications, `router.delete('/:id')`).
The source binds the path parameter as `const jobId = req.params.id` and looks
the row up by `{ jobId, userId: req.user.id }`; the subsequent owner check can
therefore never fire, but it is kept as in the source. -/
def applicationsDelete (db : Db) (uid : Nat) (idParam : Nat) : Resp × Db :=
  match db.apps.find? (fun a => a.jobId == idParam && a.userId == uid) with
  | none => (⟨404⟩, db)
  | some app =>
    if app.userId ≠ uid then (⟨403⟩, db)
    else (⟨200⟩, { db with apps := saveApplication db.apps { app with status := "지원 취소" } })

/-- The create transition of C1, phrased over the handler. -/
def ApplyTransitionSpec (db : Db) (uid jid : Nat) (resume : Option String) : Prop :=
  (findApplication db.apps uid jid = none →
    applicationsPost db uid (some jid) resume =
      (⟨201⟩,
        { db with
          apps := db.apps ++ [⟨db.nextAppId, uid, jid, resume, "지원 완료", db.now⟩],
          nextAppId := db.nextAppId + 1,
          now := db.now + 1 })) ∧
  (∀ ex, findApplication db.apps uid jid = some ex → ex.status = "지원 취소" →
    applicationsPost db uid (some jid) resume =
      (⟨200⟩, { db with apps := saveApplication db.apps { ex with status := "지원 완료" } })) ∧
  (∀ ex, findApplication db.apps uid jid = some ex → ex.status = "지원 완료" →
    applicationsPost db uid (some jid) resume = (⟨400⟩, db))

/-- C1: for every user and every existing job, `POST /applications` follows the
spec's create transition: no prior row → insert with status "지원 완료" and 201;
prior row in "지원 취소" → that row is flipped to "지원 완료" and 200 is
returned; prior row in "지원 완료" → 400 and the store is unchanged. -/
theorem C1_applications_post_create_transition
    (db : Db) (uid jid : Nat) (resume : Option String)
    (hjid : jid ≠ 0) (hjob : (findJob db jid).isSome) :
    ApplyTransitionSpec db uid jid resume := by
  obtain ⟨j, hj⟩ := Option.isSome_iff_exists.mp hjob
  have hz : (jid == 0) = false := beq_eq_false_iff_ne.mpr hjid
  refine ⟨?_, ?_, ?_⟩
  · intro h
    simp [applicationsPost, hz, hj, h]
  · intro ex h hst
    simp [applicationsPost, hz, hj, h, hst]
  · intro ex h hst
    simp [applicationsPost, hz, hj, h, hst]

/-- A tiny concrete store: one job (id 1), one user (id 1), no applications. -/
def db0 : Db :=
  { users := [⟨1, "a@b.c", "cHc=", "A", "user"⟩]
    jobs := [⟨1, "t", "c", "l", "e", "e", "full-time", "2025-01-01", "ts", 1, "d", "https://x", 0⟩]
    apps := []
    interviews := []
    reviews := []
    nextAppId := 1
    nextInterviewId := 1
    nextJobId := 2
    nextReviewId := 1
    now := 0 }

/-- Witness for C1 at the concrete store `db0`. -/
theorem C1_applications_post_create_transition_witness :
    (1 : Nat) ≠ 0 ∧ (findJob db0 1).isSome ∧ ApplyTransitionSpec db0 1 1 none :=
  ⟨by decide, by decide, C1_applications_post_create_transition db0 1 1 none (by decide) (by decide)⟩

/-- Primary keys of the `applications` table are pairwise distinct (what the
SQL PRIMARY KEY constraint guarantees for a real store). -/
abbrev AppIdsNodup (db : Db) : Prop :=
  (db.apps.map Application.id).Nodup

/-- Behaviour of `DELETE /applications/:id` as the code implements it: the
path parameter is matched against the row's `jobId` column (scoped to the
caller), a miss is a 404, a hit always belongs to the caller and is flipped to
"지원 취소", the 403 owner-mismatch branch is dead, and rows of other users
are never touched. -/
def WithdrawSpec (db : Db) (uid idParam : Nat) : Prop :=
  (db.apps.find? (fun a => a.jobId == idParam && a.userId == uid) = none →
    applicationsDelete db uid idParam = (⟨404⟩, db)) ∧
  (∀ app, db.apps.find? (fun a => a.jobId == idParam && a.userId == uid) = some app →
    app.userId = uid ∧
    applicationsDelete db uid idParam =
      (⟨200⟩, { db with apps := saveApplication db.apps { app with status := "지원 취소" } })) ∧
  (applicationsDelete db uid idParam).1.code ≠ 403 ∧
  (∀ a ∈ db.apps, a.userId ≠ uid → a ∈ (applicationsDelete db uid idParam).2.apps)

/-- C2 (amended): `DELETE /applications/:id` interprets the path parameter as
a job id, not as the application's primary key.  It fetches the caller's
application for that job; a miss is 404, a hit is flipped to "지원 취소".
Because the lookup is scoped to the caller, the found row always belongs to
the caller, the explicit 403 owner check is unreachable, and another user's
application can never be withdrawn (the request yields 404 and their rows are
left untouched). -/
theorem C2_applications_delete_scoped_by_jobId
    (db : Db) (uid idParam : Nat) (hwf : AppIdsNodup db) :
    WithdrawSpec db uid idParam := by
  refine ⟨?_, ?_, ?_, ?_⟩
  · intro h
    simp [applicationsDelete, h]
  · intro app h
    have hp := List.find?_some h
    have huid : app.userId = uid := by
      simp only [Bool.and_eq_true, beq_iff_eq] at hp
      exact hp.2
    exact ⟨huid, by simp [applicationsDelete, h, huid]⟩
  · cases hfind : db.apps.find? (fun a => a.jobId == idParam && a.userId == uid) with
    | none => simp [applicationsDelete, hfind]
    | some app =>
      have hp := List.find?_some hfind
      have huid : app.userId = uid := by
        simp only [Bool.and_eq_true, beq_iff_eq] at hp
        exact hp.2
      simp [applicationsDelete, hfind, huid]
  · intro a ha hne
    cases hfind : db.apps.find? (fun a => a.jobId == idParam && a.userId == uid) with
    | none => simpa [applicationsDelete, hfind] using ha
    | some app =>
      have hp := List.find?_some hfind
      have happmem := List.mem_of_find?_eq_some hfind
      have huid : app.userId = uid := by
        simp only [Bool.and_eq_true, beq_iff_eq] at hp
        exact hp.2
      have hneq : a ≠ app := fun hcontra => hne (hcontra ▸ huid)
      have hid : a.id ≠ app.id := by
        intro hids
        exact hneq (List.inj_on_of_nodup_map hwf ha happmem hids)
      have hbeq : (a.id == app.id) = false := beq_eq_false_iff_ne.mpr hid
      simp only [applicationsDelete, hfind]
      rw [if_neg (by simp [huid])]
      simp only [saveApplication]
      refine List.mem_map.mpr ⟨a, ha, ?_⟩
      simp [hbeq]

/-- A store holding a single application with primary key 5, job 7, owner 1. -/
def db1 : Db :=
  { db0 with
    apps := [⟨5, 1, 7, none, "지원 완료", 0⟩]
    nextAppId := 6 }

/-- Counterexample to C2 as written: the store holds an application whose
primary key (`applicationId`) is 5 and whose owner is the caller, yet
`DELETE /applications/5` by that owner answers 404 and changes nothing,
because the handler matches the parameter against `jobId`, not the primary
key. -/
theorem C2_applications_delete_counterexample :
    (∃ a ∈ db1.apps, a.id = 5 ∧ a.userId = 1) ∧
    applicationsDelete db1 1 5 = (⟨404⟩, db1) := by
  constructor
  · exact ⟨⟨5, 1, 7, none, "지원 완료", 0⟩, by decide, rfl, rfl⟩
  · decide

/-- Witness for the amended C2 at the concrete store `db1`. -/
theorem C2_applications_delete_scoped_by_jobId_witness :
    AppIdsNodup db1 ∧ WithdrawSpec db1 1 7 :=
  ⟨by decide, C2_applications_delete_scoped_by_jobId db1 1 7 (by decide)⟩

/-- The WHERE clause `{ userId, jobId }` used by `POST /applications`. -/
def pairPred (uid jid : Nat) (a : Application) : Bool :=
  a.userId == uid && a.jobId == jid

/-- All stored rows for one (user, job) pair. -/
def pairRows (db : Db) (uid jid : Nat) : List Application :=
  db.apps.filter (pairPred uid jid)

/-- Primary keys are below the auto-increment counter. -/
abbrev AppIdsBounded (db : Db) : Prop :=
  ∀ a ∈ db.apps, a.id < db.nextAppId

/-- Well-formedness a real SQL store guarantees: distinct primary keys, all
below the auto-increment counter. -/
abbrev DbWf (db : Db) : Prop :=
  AppIdsNodup db ∧ AppIdsBounded db

/-- The operations of C3: `POST /applications` and `DELETE /applications/:id`
issued for one fixed (user, job) pair. -/
inductive PairOp where
  | post (resume : Option String)
  | del
deriving Repr, DecidableEq

/-- State change performed by one operation for the pair (uid, jid). -/
def pairStep (uid jid : Nat) (db : Db) : PairOp → Db
  | .post r => (applicationsPost db uid (some jid) r).2
  | .del => (applicationsDelete db uid jid).2

/-- Run a sequence of operations for the pair (uid, jid). -/
def pairRun (uid jid : Nat) (db : Db) (ops : List PairOp) : Db :=
  ops.foldl (pairStep uid jid) db

/-- Applying twice without withdrawing: the first `POST` answers 201 and
stores one row; the second answers 400 and changes nothing. -/
def DoubleApplySpec (db : Db) (uid jid : Nat) (resume : Option String) : Prop :=
  (applicationsPost db uid (some jid) resume).1 = ⟨201⟩ ∧
  pairRows (applicationsPost db uid (some jid) resume).2 uid jid =
    [⟨db.nextAppId, uid, jid, resume, "지원 완료", db.now⟩] ∧
  applicationsPost (applicationsPost db uid (some jid) resume).2 uid (some jid) resume =
    (⟨400⟩, (applicationsPost db uid (some jid) resume).2)

/-- Withdrawing then re-applying: the withdrawal flips the stored row to
"지원 취소", and the further `POST` flips the very same row (same primary
key) back to "지원 완료"; the pair's row count stays 1 throughout. -/
def WithdrawReapplySpec (db : Db) (uid jid : Nat) (resume : Option String) : Prop :=
  (applicationsDelete (applicationsPost db uid (some jid) resume).2 uid jid).1 = ⟨200⟩ ∧
  pairRows (applicationsDelete (applicationsPost db uid (some jid) resume).2 uid jid).2 uid jid =
    [⟨db.nextAppId, uid, jid, resume, "지원 취소", db.now⟩] ∧
  (applicationsPost
      (applicationsDelete (applicationsPost db uid (some jid) resume).2 uid jid).2
      uid (some jid) resume).1 = ⟨200⟩ ∧
  pairRows
    (applicationsPost
      (applicationsDelete (applicationsPost db uid (some jid) resume).2 uid jid).2
      uid (some jid) resume).2 uid jid =
    [⟨db.nextAppId, uid, jid, resume, "지원 완료", db.now⟩]

theorem length_filter_map_le {α : Type} (l : List α) (f : α → α) (p q : α → Bool)
    (h : ∀ x ∈ l, p (f x) = true → q x = true) :
    ((l.map f).filter p).length ≤ (l.filter q).length := by
  induction l with
  | nil => simp
  | cons x xs ih =>
    have hx := h x (List.mem_cons_self x xs)
    have hih := ih (fun y hy => h y (List.mem_cons_of_mem x hy))
    simp only [List.map_cons, List.filter_cons]
    by_cases hpx : p (f x) = true
    · rw [hpx, hx hpx]
      simpa using hih
    · rw [Bool.not_eq_true] at hpx
      rw [hpx]
      by_cases hqx : q x = true
      · rw [hqx]
        simp only [List.length_cons]
        exact Nat.le_succ_of_le hih
      · rw [Bool.not_eq_true] at hqx
        rw [hqx]
        exact hih

theorem saveApplication_map_id (apps : List Application) (a : Application) :
    (saveApplication apps a).map Application.id = apps.map Application.id := by
  unfold saveApplication
  rw [List.map_map]
  apply List.map_congr_left
  intro x hx
  show Application.id (if x.id == a.id then a else x) = x.id
  by_cases h : (x.id == a.id) = true
  · rw [if_pos h]
    exact (beq_iff_eq.mp h).symm
  · rw [Bool.not_eq_true] at h
    rw [if_neg (by simp [h])]

theorem mem_saveApplication {apps : List Application} {a y : Application}
    (hy : y ∈ saveApplication apps a) : y ∈ apps ∨ (y = a ∧ ∃ x ∈ apps, x.id = a.id) := by
  obtain ⟨x, hx, hfx⟩ := List.mem_map.mp hy
  by_cases h : (x.id == a.id) = true
  · right
    refine ⟨?_, x, hx, beq_iff_eq.mp h⟩
    simp only [h, if_true] at hfx
    exact hfx.symm
  · left
    rw [Bool.not_eq_true] at h
    simp only [h, if_false] at hfx
    exact hfx ▸ hx

theorem find?_append_of_none {α : Type} (p : α → Bool) (l₁ l₂ : List α)
    (h : l₁.find? p = none) : (l₁ ++ l₂).find? p = l₂.find? p := by
  induction l₁ with
  | nil => simp
  | cons x xs ih =>
    rw [List.cons_append]
    simp only [List.find?] at h ⊢
    cases hpx : p x with
    | true => rw [hpx] at h; simp at h
    | false =>
      rw [hpx] at h
      exact ih h

theorem saveApplication_append_single (apps : List Application) (r a : Application)
    (hid : a.id = r.id) (hbound : ∀ x ∈ apps, x.id ≠ r.id) :
    saveApplication (apps ++ [r]) a = apps ++ [a] := by
  unfold saveApplication
  rw [List.map_append]
  congr 1
  · conv_rhs => rw [show apps = apps.map id from (List.map_id apps).symm]
    apply List.map_congr_left
    intro x hx
    have : (x.id == a.id) = false := beq_eq_false_iff_ne.mpr (hid ▸ hbound x hx)
    simp [this]
  · simp [hid]

/-- Preservation of well-formedness and of the at-most-one-row bound by one
pair operation. -/
theorem pairStep_preserves (uid jid : Nat) (db : Db) (op : PairOp)
    (hwf : DbWf db) (hle : (pairRows db uid jid).length ≤ 1) :
    DbWf (pairStep uid jid db op) ∧
      (pairRows (pairStep uid jid db op) uid jid).length ≤ 1 := by
  obtain ⟨hnodup, hbound⟩ := hwf
  have hinj : ∀ x ∈ db.apps, ∀ y ∈ db.apps, x.id = y.id → x = y := by
    intro x hx y hy hxy
    exact List.inj_on_of_nodup_map hnodup hx hy hxy
  -- the flip case shared by both operations
  have hsave : ∀ (ex : Application) (s : String), ex ∈ db.apps → pairPred uid jid ex = true →
      DbWf { db with apps := saveApplication db.apps { ex with status := s } } ∧
      (pairRows { db with apps := saveApplication db.apps { ex with status := s } } uid jid).length ≤ 1 := by
    intro ex s hexmem hexp
    refine ⟨⟨?_, ?_⟩, ?_⟩
    · show (List.map Application.id _).Nodup
      rw [saveApplication_map_id]
      exact hnodup
    · intro y hy
      rcases mem_saveApplication hy with hmem | ⟨rfl, x, hx, hxid⟩
      · exact hbound y hmem
      · show ex.id < db.nextAppId
        exact hbound ex hexmem
    · refine le_trans ?_ hle
      unfold pairRows saveApplication
      apply length_filter_map_le
      intro x hx hpfx
      by_cases hb : (x.id == Application.id { ex with status := s }) = true
      · have hxex : x = ex := hinj x hx ex hexmem (beq_iff_eq.mp hb)
        rw [hxex]
        exact hexp
      · rw [Bool.not_eq_true] at hb
        rw [hb] at hpfx
        simpa using hpfx
  cases op with
  | post resume =>
    show DbWf (applicationsPost db uid (some jid) resume).2 ∧
        (pairRows (applicationsPost db uid (some jid) resume).2 uid jid).length ≤ 1
    by_cases hz : (jid == 0) = true
    · have heq : applicationsPost db uid (some jid) resume = (⟨400⟩, db) := by
        simp [applicationsPost, hz]
      rw [heq]
      exact ⟨⟨hnodup, hbound⟩, hle⟩
    · rw [Bool.not_eq_true] at hz
      cases hjob : findJob db jid with
      | none =>
        have heq : applicationsPost db uid (some jid) resume = (⟨404⟩, db) := by
          simp [applicationsPost, hz, hjob]
        rw [heq]
        exact ⟨⟨hnodup, hbound⟩, hle⟩
      | some j =>
        cases hfind : findApplication db.apps uid jid with
        | some ex =>
          have hexmem := List.mem_of_find?_eq_some hfind
          have hexp : pairPred uid jid ex = true := List.find?_some hfind
          by_cases hst : (ex.status == "지원 취소") = true
          · have heq : applicationsPost db uid (some jid) resume =
                (⟨200⟩, { db with apps := saveApplication db.apps { ex with status := "지원 완료" } }) := by
              simp [applicationsPost, hz, hjob, hfind, hst]
            rw [heq]
            exact hsave ex "지원 완료" hexmem hexp
          · rw [Bool.not_eq_true] at hst
            have heq : applicationsPost db uid (some jid) resume = (⟨400⟩, db) := by
              simp [applicationsPost, hz, hjob, hfind, hst]
            rw [heq]
            exact ⟨⟨hnodup, hbound⟩, hle⟩
        | none =>
          have heq : applicationsPost db uid (some jid) resume =
              (⟨201⟩,
                { db with
                  apps := db.apps ++ [⟨db.nextAppId, uid, jid, resume, "지원 완료", db.now⟩],
                  nextAppId := db.nextAppId + 1,
                  now := db.now + 1 }) := by
            simp [applicationsPost, hz, hjob, hfind]
          rw [heq]
          have hempty : db.apps.filter (pairPred uid jid) = [] := by
            rw [List.filter_eq_nil_iff]
            intro x hx
            have := List.find?_eq_none.mp hfind x hx
            simpa [findApplication, pairPred] using this
          constructor
          · constructor
            · show (List.map Application.id _).Nodup
              rw [List.map_append]
              have hnotin : db.nextAppId ∉ db.apps.map Application.id := by
                intro hmem
                obtain ⟨x, hx, hxid⟩ := List.mem_map.mp hmem
                exact absurd hxid (Nat.ne_of_lt (hbound x hx))
              simp only [List.map_cons, List.map_nil]
              rw [List.nodup_append]
              exact ⟨hnodup, List.nodup_singleton _, by
                intro x hx hy
                simp only [List.mem_singleton] at hy
                exact hnotin (hy ▸ hx)⟩
            · intro y hy
              rcases List.mem_append.mp hy with hmem | hmem
              · exact Nat.lt_succ_of_lt (hbound y hmem)
              · simp only [List.mem_singleton] at hmem
                rw [hmem]
                exact Nat.lt_succ_self _
          · show (List.filter (pairPred uid jid) (db.apps ++ _)).length ≤ 1
            rw [List.filter_append, hempty]
            simp [pairPred]
  | del =>
    show DbWf (applicationsDelete db uid jid).2 ∧
        (pairRows (applicationsDelete db uid jid).2 uid jid).length ≤ 1
    cases hfind : db.apps.find? (fun a => a.jobId == jid && a.userId == uid) with
    | none =>
      have heq : applicationsDelete db uid jid = (⟨404⟩, db) := by
        simp [applicationsDelete, hfind]
      rw [heq]
      exact ⟨⟨hnodup, hbound⟩, hle⟩
    | some app =>
      have hmem := List.mem_of_find?_eq_some hfind
      have hp := List.find?_some hfind
      have huid : app.userId = uid := by
        simp only [Bool.and_eq_true, beq_iff_eq] at hp
        exact hp.2
      have hpp : pairPred uid jid app = true := by
        simp only [Bool.and_eq_true, beq_iff_eq] at hp
        simp [pairPred, hp.1, hp.2]
      have heq : applicationsDelete db uid jid =
          (⟨200⟩, { db with apps := saveApplication db.apps { app with status := "지원 취소" } }) := by
        simp [applicationsDelete, hfind, huid]
      rw [heq]
      exact hsave app "지원 취소" hmem hpp

/-- The at-most-one-row property of C3, phrased over sequences of pair
operations. -/
def AtMostOneRowSpec (db : Db) (uid jid : Nat) : Prop :=
  ∀ ops : List PairOp,
    DbWf (pairRun uid jid db ops) ∧ (pairRows (pairRun uid jid db ops) uid jid).length ≤ 1

theorem pairRun_preserves (uid jid : Nat) (db : Db)
    (hwf : DbWf db) (hle : (pairRows db uid jid).length ≤ 1) :
    AtMostOneRowSpec db uid jid := by
  intro ops
  induction ops generalizing db with
  | nil => exact ⟨hwf, hle⟩
  | cons op ops ih =>
    have hstep := pairStep_preserves uid jid db op hwf hle
    exact ih (pairStep uid jid db op) hstep.1 hstep.2

/-- C3: starting from a store with no row for the pair (uid, jid), any
sequence of `POST /applications` / `DELETE /applications/:id` operations for
that pair leaves at most one stored row; applying twice yields one row and a
400 on the second call; withdrawing and re-applying flips the same row (same
primary key) back to "지원 완료" instead of inserting a second one. -/
theorem C3_at_most_one_application_row
    (db : Db) (uid jid : Nat) (resume : Option String)
    (hwf : DbWf db) (h0 : pairRows db uid jid = [])
    (hjid : jid ≠ 0) (hjob : (findJob db jid).isSome) :
    AtMostOneRowSpec db uid jid ∧
      DoubleApplySpec db uid jid resume ∧ WithdrawReapplySpec db uid jid resume := by
  obtain ⟨hnodup, hbound⟩ := hwf
  obtain ⟨j, hj⟩ := Option.isSome_iff_exists.mp hjob
  have hz : (jid == 0) = false := beq_eq_false_iff_ne.mpr hjid
  have hfail : ∀ x ∈ db.apps, ¬ pairPred uid jid x = true := by
    rw [← List.filter_eq_nil_iff]
    exact h0
  have hfind0 : findApplication db.apps uid jid = none :=
    List.find?_eq_none.mpr hfail
  have h0f : db.apps.filter (pairPred uid jid) = [] := h0
  -- shorthand for the three rows the scenario passes through
  set r1 : Application := ⟨db.nextAppId, uid, jid, resume, "지원 완료", db.now⟩ with hr1
  set r2 : Application := ⟨db.nextAppId, uid, jid, resume, "지원 취소", db.now⟩ with hr2
  have hboundne : ∀ x ∈ db.apps, x.id ≠ db.nextAppId :=
    fun x hx => Nat.ne_of_lt (hbound x hx)
  -- step 1: the first POST inserts r1
  have post1 : applicationsPost db uid (some jid) resume =
      (⟨201⟩,
        { db with
          apps := db.apps ++ [r1],
          nextAppId := db.nextAppId + 1,
          now := db.now + 1 }) := by
    simp [applicationsPost, hz, hj, hfind0, hr1]
  set db1 : Db :=
    { db with
      apps := db.apps ++ [r1],
      nextAppId := db.nextAppId + 1,
      now := db.now + 1 } with hdb1
  have hj1 : findJob db1 jid = some j := hj
  have hfind1 : findApplication db1.apps uid jid = some r1 := by
    show (db.apps ++ [r1]).find? _ = some r1
    rw [find?_append_of_none _ _ _ hfind0]
    simp [List.find?]
  -- step 2: the second POST is rejected and changes nothing
  have post2 : applicationsPost db1 uid (some jid) resume = (⟨400⟩, db1) := by
    simp [applicationsPost, hz, hj1, hfind1, hr1]
  have hrows1 : pairRows db1 uid jid = [r1] := by
    show (db.apps ++ [r1]).filter _ = [r1]
    rw [List.filter_append, h0f]
    simp [pairPred]
  -- step 3: the DELETE flips r1 to r2
  have hfindD : db1.apps.find? (fun a => a.jobId == jid && a.userId == uid) = some r1 := by
    show (db.apps ++ [r1]).find? _ = some r1
    rw [find?_append_of_none]
    · simp [List.find?]
    · exact List.find?_eq_none.mpr (fun x hx => by
        have := hfail x hx
        simp only [pairPred, Bool.and_eq_true] at this ⊢
        tauto)
  have hsave1 : saveApplication (db.apps ++ [r1]) r2 = db.apps ++ [r2] :=
    saveApplication_append_single db.apps r1 r2 rfl hboundne
  have del1 : applicationsDelete db1 uid jid =
      (⟨200⟩, { db1 with apps := db.apps ++ [r2] }) := by
    have : applicationsDelete db1 uid jid =
        (⟨200⟩, { db1 with apps := saveApplication db1.apps { r1 with status := "지원 취소" } }) := by
      simp [applicationsDelete, hfindD]
    rw [this]
    show _ = (_, { db1 with apps := db.apps ++ [r2] })
    rw [show ({ r1 with status := "지원 취소" } : Application) = r2 from rfl]
    rw [show db1.apps = db.apps ++ [r1] from rfl, hsave1]
  set db2 : Db := { db1 with apps := db.apps ++ [r2] } with hdb2
  have hrows2 : pairRows db2 uid jid = [r2] := by
    show (db.apps ++ [r2]).filter _ = [r2]
    rw [List.filter_append, h0f]
    simp [pairPred]
  -- step 4: the final POST flips the same row back
  have hj2 : findJob db2 jid = some j := hj
  have hfind2 : findApplication db2.apps uid jid = some r2 := by
    show (db.apps ++ [r2]).find? _ = some r2
    rw [find?_append_of_none _ _ _ hfind0]
    simp [List.find?]
  have hsave2 : saveApplication (db.apps ++ [r2]) r1 = db.apps ++ [r1] :=
    saveApplication_append_single db.apps r2 r1 rfl hboundne
  have post3 : applicationsPost db2 uid (some jid) resume =
      (⟨200⟩, { db2 with apps := db.apps ++ [r1] }) := by
    have : applicationsPost db2 uid (some jid) resume =
        (⟨200⟩, { db2 with apps := saveApplication db2.apps { r2 with status := "지원 완료" } }) := by
      simp [applicationsPost, hz, hj2, hfind2, hr2]
    rw [this]
    show _ = (_, { db2 with apps := db.apps ++ [r1] })
    rw [show ({ r2 with status := "지원 완료" } : Application) = r1 from rfl]
    rw [show db2.apps = db.apps ++ [r2] from rfl, hsave2]
  have hrows3 : pairRows { db2 with apps := db.apps ++ [r1] } uid jid = [r1] := by
    show (db.apps ++ [r1]).filter _ = [r1]
    rw [List.filter_append, h0f]
    simp [pairPred]
  refine ⟨?_, ?_, ?_⟩
  · exact pairRun_preserves uid jid db ⟨hnodup, hbound⟩ (by rw [h0]; simp)
  · refine ⟨?_, ?_, ?_⟩
    · rw [post1]
    · rw [post1]
      exact hrows1
    · rw [post1]
      exact post2
  · refine ⟨?_, ?_, ?_, ?_⟩
    · rw [post1]
      rw [del1]
    · rw [post1, del1]
      exact hrows2
    · rw [post1, del1, post3]
    · rw [post1, del1, post3]
      exact hrows3

/-- Witness for C3 at the concrete store `db0`. -/
theorem C3_at_most_one_application_row_witness :
    DbWf db0 ∧ pairRows db0 1 1 = [] ∧ (1 : Nat) ≠ 0 ∧ (findJob db0 1).isSome ∧
      (AtMostOneRowSpec db0 1 1 ∧
        DoubleApplySpec db0 1 1 none ∧ WithdrawReapplySpec db0 1 1 none) :=
  ⟨by constructor <;> decide, by decide, by decide, by decide,
    C3_at_most_one_application_row db0 1 1 none ⟨by decide, by decide⟩ (by decide)
      (by decide) (by decide)⟩

/-- `POST /interviews` (routes/interviews, `router.post('/')`): allowed only
for an application owned by the caller; the application's current `status` is
copied into the interview's `interview_status` (a snapshot). -/
def interviewsPost (db : Db) (uid applicationId : Nat) (date : String)
    (feedback : Option String) : Resp × Db :=
  match db.apps.find? (fun a => a.id == applicationId && a.userId == uid) with
  | none => (⟨403⟩, db)
  | some app =>
    (⟨201⟩,
      { db with
        interviews := db.interviews ++
          [⟨db.nextInterviewId, applicationId, uid, date, app.status, feedback⟩],
        nextInterviewId := db.nextInterviewId + 1 })

/-- `Interview.findOne({ where: { applicationId, userId }, include:
[{ model: Application, required: true }] })`: first interview row matching the
keys that also has its application (INNER JOIN), paired with that
application. -/
def findInterviewWithApp (apps : List Application) :
    List Interview → Nat → Nat → Option (Interview × Application)
  | [], _, _ => none
  | i :: rest, apId, uid =>
    if i.applicationId == apId && i.userId == uid then
      match apps.find? (fun a => a.id == i.applicationId) with
      | some a => some (i, a)
      | none => findInterviewWithApp apps rest apId uid
    else findInterviewWithApp apps rest apId uid

/-- `interview.save()`: persist an updated interview row by primary key. -/
def saveInterview (l : List Interview) (i : Interview) : List Interview :=
  l.map (fun x => if x.id == i.id then i else x)

/-- `PUT /interviews/:applicationId` (routes/interviews,
`router.put('/:applicationId')`): feedback may be changed only when the
joined application's status equals the sentinel "면접 완료". -/
def interviewsPut (db : Db) (uid apId : Nat) (feedback : String) : Resp × Db :=
  match findInterviewWithApp db.apps db.interviews apId uid with
  | none => (⟨404⟩, db)
  | some (i, app) =>
    if app.status ≠ "면접 완료" then (⟨403⟩, db)
    else
      (⟨200⟩, { db with interviews := saveInterview db.interviews { i with feedback := some feedback } })

/-- `DELETE /interviews/:id` (routes/interviews, `router.delete('/:id')`). -/
def interviewsDelete (db : Db) (uid iid : Nat) : Resp × Db :=
  match db.interviews.find? (fun i => i.id == iid && i.userId == uid) with
  | none => (⟨404⟩, db)
  | some i => (⟨200⟩, { db with interviews := db.interviews.filter (fun x => x.id != i.id) })

/-- All operations of the system that can touch the `applications` or
`interviews` tables, plus over-approximations of the remaining writers:
`addUser` covers registration as well as out-of-band role edits, `setJobs`
covers every Jobs-table writer (POST/PUT/DELETE /jobs and the crawler), and
`deleteUser` covers `DELETE /auth/profile` with its foreign-key cascade. -/
inductive Op where
  | apply (uid : Nat) (jobId : Option Nat) (resume : Option String)
  | withdraw (uid idParam : Nat)
  | interviewCreate (uid apId : Nat) (date : String) (fb : Option String)
  | interviewUpdate (uid apId : Nat) (fb : String)
  | interviewDelete (uid iid : Nat)
  | addUser (u : User)
  | deleteUser (uid : Nat)
  | setJobs (js : List Job)

/-- One state transition of the system. -/
def step (db : Db) : Op → Db
  | .apply uid jobId resume => (applicationsPost db uid jobId resume).2
  | .withdraw uid idp => (applicationsDelete db uid idp).2
  | .interviewCreate uid apId d fb => (interviewsPost db uid apId d fb).2
  | .interviewUpdate uid apId fb => (interviewsPut db uid apId fb).2
  | .interviewDelete uid iid => (interviewsDelete db uid iid).2
  | .addUser u => { db with users := db.users ++ [u] }
  | .deleteUser uid =>
      { db with
        users := db.users.filter (fun u => u.id != uid),
        apps := db.apps.filter (fun a => a.userId != uid),
        interviews := db.interviews.filter (fun i => i.userId != uid),
        reviews := db.reviews.filter (fun rv => rv.userId != uid) }
  | .setJobs js => { db with jobs := js }

/-- The empty store the server starts from. -/
def initDb : Db := ⟨[], [], [], [], [], 1, 1, 1, 1, 0⟩

/-- The store reached by a sequence of operations from the empty store. -/
def run (ops : List Op) : Db :=
  ops.foldl step initDb

/-- Every stored application is in one of the two writable states. -/
def StatusInv (db : Db) : Prop :=
  ∀ a ∈ db.apps, a.status = "지원 완료" ∨ a.status = "지원 취소"

theorem step_preserves_statusInv (db : Db) (op : Op) (h : StatusInv db) :
    StatusInv (step db op) := by
  cases op with
  | apply uid jobId resume =>
    show StatusInv (applicationsPost db uid jobId resume).2
    cases jobId with
    | none => exact h
    | some jid =>
      by_cases hz : (jid == 0) = true
      · have heq : applicationsPost db uid (some jid) resume = (⟨400⟩, db) := by
          simp [applicationsPost, hz]
        rw [heq]
        exact h
      · rw [Bool.not_eq_true] at hz
        cases hjob : findJob db jid with
        | none =>
          have heq : applicationsPost db uid (some jid) resume = (⟨404⟩, db) := by
            simp [applicationsPost, hz, hjob]
          rw [heq]
          exact h
        | some j =>
          cases hfind : findApplication db.apps uid jid with
          | some ex =>
            by_cases hst : (ex.status == "지원 취소") = true
            · have heq : applicationsPost db uid (some jid) resume =
                  (⟨200⟩, { db with apps := saveApplication db.apps { ex with status := "지원 완료" } }) := by
                simp [applicationsPost, hz, hjob, hfind, hst]
              rw [heq]
              intro a ha
              rcases mem_saveApplication ha with hmem | ⟨rfl, _⟩
              · exact h a hmem
              · exact Or.inl rfl
            · rw [Bool.not_eq_true] at hst
              have heq : applicationsPost db uid (some jid) resume = (⟨400⟩, db) := by
                simp [applicationsPost, hz, hjob, hfind, hst]
              rw [heq]
              exact h
          | none =>
            have heq : applicationsPost db uid (some jid) resume =
                (⟨201⟩,
                  { db with
                    apps := db.apps ++ [⟨db.nextAppId, uid, jid, resume, "지원 완료", db.now⟩],
                    nextAppId := db.nextAppId + 1,
                    now := db.now + 1 }) := by
              simp [applicationsPost, hz, hjob, hfind]
            rw [heq]
            intro a ha
            rcases List.mem_append.mp ha with hmem | hmem
            · exact h a hmem
            · simp only [List.mem_singleton] at hmem
              rw [hmem]
              exact Or.inl rfl
  | withdraw uid idp =>
    show StatusInv (applicationsDelete db uid idp).2
    cases hfind : db.apps.find? (fun a => a.jobId == idp && a.userId == uid) with
    | none =>
      have heq : applicationsDelete db uid idp = (⟨404⟩, db) := by
        simp [applicationsDelete, hfind]
      rw [heq]
      exact h
    | some app =>
      have huid : app.userId = uid := by
        have hp := List.find?_some hfind
        simp only [Bool.and_eq_true, beq_iff_eq] at hp
        exact hp.2
      have heq : applicationsDelete db uid idp =
          (⟨200⟩, { db with apps := saveApplication db.apps { app with status := "지원 취소" } }) := by
        simp [applicationsDelete, hfind, huid]
      rw [heq]
      intro a ha
      rcases mem_saveApplication ha with hmem | ⟨rfl, _⟩
      · exact h a hmem
      · exact Or.inr rfl
  | interviewCreate uid apId d fb =>
    show StatusInv (interviewsPost db uid apId d fb).2
    cases hfind : db.apps.find? (fun a => a.id == apId && a.userId == uid) with
    | none =>
      have heq : interviewsPost db uid apId d fb = (⟨403⟩, db) := by
        simp [interviewsPost, hfind]
      rw [heq]
      exact h
    | some app =>
      have heq : interviewsPost db uid apId d fb =
          (⟨201⟩,
            { db with
              interviews := db.interviews ++
                [⟨db.nextInterviewId, apId, uid, d, app.status, fb⟩],
              nextInterviewId := db.nextInterviewId + 1 }) := by
        simp [interviewsPost, hfind]
      rw [heq]
      exact h
  | interviewUpdate uid apId fb =>
    show StatusInv (interviewsPut db uid apId fb).2
    cases hfind : findInterviewWithApp db.apps db.interviews apId uid with
    | none =>
      have heq : interviewsPut db uid apId fb = (⟨404⟩, db) := by
        simp [interviewsPut, hfind]
      rw [heq]
      exact h
    | some ia =>
      obtain ⟨i, app⟩ := ia
      by_cases hst : app.status = "면접 완료"
      · have heq : interviewsPut db uid apId fb =
            (⟨200⟩, { db with interviews := saveInterview db.interviews { i with feedback := some fb } }) := by
          simp [interviewsPut, hfind, hst]
        rw [heq]
        exact h
      · have heq : interviewsPut db uid apId fb = (⟨403⟩, db) := by
          simp [interviewsPut, hfind, hst]
        rw [heq]
        exact h
  | interviewDelete uid iid =>
    show StatusInv (interviewsDelete db uid iid).2
    cases hfind : db.interviews.find? (fun i => i.id == iid && i.userId == uid) with
    | none =>
      have heq : interviewsDelete db uid iid = (⟨404⟩, db) := by
        simp [interviewsDelete, hfind]
      rw [heq]
      exact h
    | some i =>
      have heq : interviewsDelete db uid iid =
          (⟨200⟩, { db with interviews := db.interviews.filter (fun x => x.id != i.id) }) := by
        simp [interviewsDelete, hfind]
      rw [heq]
      exact h
  | addUser u => exact h
  | deleteUser uid =>
    intro a ha
    exact h a (List.mem_of_mem_filter ha)
  | setJobs js => exact h

theorem statusInv_foldl (ops : List Op) (db : Db) (h : StatusInv db) :
    StatusInv (ops.foldl step db) := by
  induction ops generalizing db with
  | nil => exact h
  | cons op ops ih => exact ih (step db op) (step_preserves_statusInv db op h)

theorem statusInv_run (ops : List Op) : StatusInv (run ops) :=
  statusInv_foldl ops initDb (fun a ha => absurd ha (List.not_mem_nil a))

theorem findInterviewWithApp_mem_apps (apps : List Application)
    (interviews : List Interview) (apId uid : Nat) (i : Interview) (a : Application)
    (h : findInterviewWithApp apps interviews apId uid = some (i, a)) : a ∈ apps := by
  induction interviews with
  | nil => simp [findInterviewWithApp] at h
  | cons j js ih =>
    rw [findInterviewWithApp] at h
    by_cases hkey : (j.applicationId == apId && j.userId == uid) = true
    · rw [if_pos hkey] at h
      cases hfa : apps.find? (fun a => a.id == j.applicationId) with
      | none =>
        rw [hfa] at h
        exact ih h
      | some a0 =>
        rw [hfa] at h
        simp only [Option.some.injEq, Prod.mk.injEq] at h
        rw [← h.2]
        exact List.mem_of_find?_eq_some hfa
    · rw [if_neg hkey] at h
      exact ih h

/-- C4: in every reachable store, every application's status is "지원 완료" or
"지원 취소" — the sentinel "면접 완료" is never written — so every request to
`PUT /interviews/:applicationId` answers 404 or 403 and leaves the store (in
particular every interview's feedback) unchanged. -/
theorem C4_interviews_put_unreachable_success
    (ops : List Op) (uid apId : Nat) (feedback : String) :
    ((interviewsPut (run ops) uid apId feedback).1.code = 404 ∨
      (interviewsPut (run ops) uid apId feedback).1.code = 403) ∧
    (interviewsPut (run ops) uid apId feedback).2 = run ops := by
  have hinv := statusInv_run ops
  cases hfind : findInterviewWithApp (run ops).apps (run ops).interviews apId uid with
  | none =>
    have heq : interviewsPut (run ops) uid apId feedback = (⟨404⟩, run ops) := by
      simp [interviewsPut, hfind]
    rw [heq]
    exact ⟨Or.inl rfl, rfl⟩
  | some ia =>
    obtain ⟨i, app⟩ := ia
    have hmem := findInterviewWithApp_mem_apps _ _ _ _ _ _ hfind
    have hst : app.status ≠ "면접 완료" := by
      rcases hinv app hmem with hs | hs <;> rw [hs] <;> decide
    have heq : interviewsPut (run ops) uid apId feedback = (⟨403⟩, run ops) := by
      simp [interviewsPut, hfind, hst]
    rw [heq]
    exact ⟨Or.inr rfl, rfl⟩

/-- Identity claims the auth middleware attaches to the request. -/
structure Caller where
  id : Nat
  role : String
deriving Repr, DecidableEq

/-- Query string of `GET /applications`.  Absent parameters are `none`; an
empty `status` string is falsy in JS, so it applies no filter. -/
structure AppQuery where
  status : Option String
  jobId : Option Nat
  userId : Option Nat
deriving Repr, DecidableEq

/-- One element of the `GET /applications` reply: the application row with
its `id` excluded, `resume` null/blank replaced by "미등록", the joined job's
(title, company) and — only for the privileged branch — the joined
applicant's (name, email). -/
structure AppRow where
  userId : Nat
  jobId : Nat
  status : String
  resume : String
  createdAt : Nat
  job : Option (String × String)
  user : Option (String × String)
deriving Repr, DecidableEq

/-- The `userId` constraint of the WHERE clause:
`if (userId && isCompany) filter.userId = userId; else if (!isCompany)
filter.userId = req.user.id;`. -/
def userIdFilter (c : Caller) (q : AppQuery) : Option Nat :=
  if q.userId.isSome && (c.role == "company") then q.userId
  else if !(c.role == "company") then some c.id
  else none

/-- The full WHERE clause built by `GET /applications`. -/
def appQueryPred (c : Caller) (q : AppQuery) (a : Application) : Bool :=
  (match q.status with
   | none => true
   | some s => if s == "" then true else a.status == s) &&
  (match q.jobId with
   | none => true
   | some v => a.jobId == v) &&
  (match userIdFilter c q with
   | none => true
   | some v => a.userId == v)

/-- Insert keeping the list ordered by `createdAt` descending. -/
def insertByCreatedAtDesc (a : Application) : List Application → List Application
  | [] => [a]
  | b :: rest =>
    if b.createdAt < a.createdAt then a :: b :: rest
    else b :: insertByCreatedAtDesc a rest

/-- `ORDER BY createdAt DESC`. -/
def sortByCreatedAtDesc : List Application → List Application
  | [] => []
  | a :: rest => insertByCreatedAtDesc a (sortByCreatedAtDesc rest)

/-- Shape one stored application row for the reply.  `app.resume || "미등록"`
also replaces an empty string, and the `user` include is only added for the
privileged branch (`isCompany`). -/
def renderAppRow (db : Db) (isCompany : Bool) (a : Application) : AppRow :=
  { userId := a.userId
    jobId := a.jobId
    status := a.status
    resume :=
      match a.resume with
      | none => "미등록"
      | some s => if s == "" then "미등록" else s
    createdAt := a.createdAt
    job := (db.jobs.find? (fun j => j.id == a.jobId)).map (fun j => (j.title, j.company))
    user :=
      if isCompany then
        (db.users.find? (fun u => u.id == a.userId)).map (fun u => (u.name, u.email))
      else none }

/-- `GET /applications` (routes/applications, `router.get('/')`).  Its
privileged branch is guarded by `req.user.role === 'company'`. -/
def applicationsGet (db : Db) (c : Caller) (q : AppQuery) : List AppRow :=
  (sortByCreatedAtDesc (db.apps.filter (appQueryPred c q))).map
    (renderAppRow db (c.role == "company"))

/-- Visibility of `GET /applications` as the code implements it. -/
def ListVisibilitySpec (db : Db) (c : Caller) (q : AppQuery) : Prop :=
  (c.role ≠ "company" →
    ∀ r ∈ applicationsGet db c q, r.userId = c.id ∧ r.user = none) ∧
  (c.role = "company" →
    ∀ r ∈ applicationsGet db c q,
      r.user = (db.users.find? (fun u => u.id == r.userId)).map (fun u => (u.name, u.email))) ∧
  (c.role = "company" → ∀ v, q.userId = some v →
    ∀ r ∈ applicationsGet db c q, r.userId = v)

/-- Store for C5: an admin (id 1), a plain user B (id 2), and B's application. -/
def dbC5 : Db :=
  { users := [⟨1, "admin@x", "cHc=", "Admin", "admin"⟩, ⟨2, "b@x", "cHc=", "B", "user"⟩]
    jobs := [⟨1, "t", "c", "l", "e", "e", "full-time", "2025-01-01", "ts", 1, "d", "https://x", 0⟩]
    apps := [⟨1, 2, 1, none, "지원 완료", 0⟩]
    interviews := []
    reviews := []
    nextAppId := 2
    nextInterviewId := 1
    nextJobId := 2
    nextReviewId := 1
    now := 1 }

theorem mem_insertByCreatedAtDesc (a x : Application) (l : List Application) :
    x ∈ insertByCreatedAtDesc a l ↔ x = a ∨ x ∈ l := by
  induction l with
  | nil => simp [insertByCreatedAtDesc]
  | cons b rest ih =>
    rw [insertByCreatedAtDesc]
    by_cases h : b.createdAt < a.createdAt
    · rw [if_pos h]
      simp only [List.mem_cons]
    · rw [if_neg h]
      simp only [List.mem_cons, ih]
      tauto

theorem mem_sortByCreatedAtDesc (x : Application) (l : List Application) :
    x ∈ sortByCreatedAtDesc l ↔ x ∈ l := by
  induction l with
  | nil => simp [sortByCreatedAtDesc]
  | cons a rest ih =>
    rw [sortByCreatedAtDesc, mem_insertByCreatedAtDesc]
    simp only [List.mem_cons, ih]

/-- C5 (amended): the privileged branch of `GET /applications` is guarded by
the literal role string `"company"`, which neither "companyuser" nor "admin"
matches.  Any caller whose role is not exactly `"company"` — including
company users and admins — sees only rows with their own `userId` and never
the applicant's name/email; only a caller whose role is exactly `"company"`
gets the arbitrary `userId` filter and the applicant's (name, email) join. -/
theorem C5_applications_get_company_literal (db : Db) (c : Caller) (q : AppQuery) :
    ListVisibilitySpec db c q := by
  refine ⟨?_, ?_, ?_⟩
  · intro hrole r hr
    obtain ⟨a, ha, rfl⟩ := List.mem_map.mp hr
    have hmem0 : a ∈ db.apps.filter (appQueryPred c q) :=
      (mem_sortByCreatedAtDesc a _).mp ha
    have hpred : appQueryPred c q a = true := (List.mem_filter.mp hmem0).2
    have hcomp : (c.role == "company") = false := beq_eq_false_iff_ne.mpr hrole
    have huf : userIdFilter c q = some c.id := by
      simp [userIdFilter, hcomp]
    constructor
    · show a.userId = c.id
      simp only [appQueryPred, huf, Bool.and_eq_true, beq_iff_eq] at hpred
      exact hpred.2
    · show (renderAppRow db (c.role == "company") a).user = none
      simp [renderAppRow, hcomp]
  · intro hrole r hr
    obtain ⟨a, ha, rfl⟩ := List.mem_map.mp hr
    have hcomp : (c.role == "company") = true := by simp [hrole]
    show (renderAppRow db (c.role == "company") a).user = _
    simp [renderAppRow, hcomp]
  · intro hrole v hv r hr
    obtain ⟨a, ha, rfl⟩ := List.mem_map.mp hr
    have hmem0 : a ∈ db.apps.filter (appQueryPred c q) :=
      (mem_sortByCreatedAtDesc a _).mp ha
    have hpred : appQueryPred c q a = true := (List.mem_filter.mp hmem0).2
    have hcomp : (c.role == "company") = true := by simp [hrole]
    have huf : userIdFilter c q = some v := by
      simp [userIdFilter, hcomp, hv]
    show a.userId = v
    simp only [appQueryPred, huf, Bool.and_eq_true, beq_iff_eq] at hpred
    exact hpred.2

/-- Counterexample to C5 as written: an admin requesting `?userId=2` while
user 2 has a stored "지원 완료" application receives an empty listing (and in
particular no applicant name/email), because the privileged check
`role === 'company'` does not match "admin"; the claim instead promises the
filtered rows with the applicant's name and email. -/
theorem C5_applications_get_counterexample :
    (∃ a ∈ dbC5.apps, a.userId = 2 ∧ a.status = "지원 완료") ∧
    applicationsGet dbC5 ⟨1, "admin"⟩ ⟨none, none, some 2⟩ = [] := by
  constructor
  · decide
  · decide

/-- Witness for the amended C5 at the concrete store `dbC5`. -/
theorem C5_applications_get_company_literal_witness :
    ListVisibilitySpec dbC5 ⟨3, "company"⟩ ⟨none, none, some 2⟩ :=
  C5_applications_get_company_literal dbC5 ⟨3, "company"⟩ ⟨none, none, some 2⟩

/-- Decoded JWT payload.  `role` is `none` when the signed object carried no
`role` key. -/
structure TokenPayload where
  id : Nat
  email : String
  name : String
  role : Option String
deriving Repr, DecidableEq

/-- A JWT as the server's secret sees it: correctly signed with an expiry
flag, or not verifiable at all. -/
inductive Token where
  | signed (p : TokenPayload) (expired : Bool)
  | malformed
deriving Repr, DecidableEq

/-- `jwt.verify(token, JWT_SECRET)`: the decoded payload for a
signature-valid, unexpired token; an error (here `none`) otherwise. -/
def verifyToken : Token → Option TokenPayload
  | .signed p false => some p
  | _ => none

/-- The payload `POST /auth/login` signs into both tokens:
`{ id, email, name, role }`. -/
def loginPayload (u : User) : TokenPayload :=
  ⟨u.id, u.email, u.name, some u.role⟩

/-- Reply of `POST /auth/refresh`. -/
structure RefreshResult where
  code : Nat
  accessToken : Option Token
deriving Repr, DecidableEq

/-- `POST /auth/refresh` (routes/auth, `router.post('/refresh')`): missing
token → 400; failed verification → 403; otherwise a fresh access token signed
over `{ id: decoded.id, email: decoded.email, name: decoded.name }` — note
the payload built here has no `role` key. -/
def authRefresh (refreshToken : Option Token) : RefreshResult :=
  match refreshToken with
  | none => ⟨400, none⟩
  | some t =>
    match verifyToken t with
    | none => ⟨403, none⟩
    | some d => ⟨200, some (.signed ⟨d.id, d.email, d.name, none⟩ false)⟩

/-- Behaviour of `POST /auth/refresh` as the code implements it. -/
def RefreshSpec (p : TokenPayload) (t : Token) : Prop :=
  authRefresh (some (.signed p false)) =
    ⟨200, some (.signed ⟨p.id, p.email, p.name, none⟩ false)⟩ ∧
  (verifyToken t = none → authRefresh (some t) = ⟨403, none⟩)

/-- The login payload of the concrete user in `db0`. -/
def refreshP : TokenPayload := loginPayload ⟨1, "a@b.c", "cHc=", "A", "user"⟩

/-- Counterexample to C6 as written: refreshing with a valid refresh token
whose claims are `{ id 1, email "a@b.c", name "A", role "user" }` yields a
200 with an access token whose payload has no `role` claim — not the full
claim set of the refresh token. -/
theorem C6_auth_refresh_counterexample :
    (authRefresh (some (Token.signed refreshP false))).code = 200 ∧
    (authRefresh (some (Token.signed refreshP false))).accessToken =
      some (Token.signed ⟨1, "a@b.c", "A", none⟩ false) ∧
    (⟨1, "a@b.c", "A", none⟩ : TokenPayload) ≠ refreshP := by
  refine ⟨rfl, rfl, ?_⟩
  decide

/-- C6 (amended): for every signature-valid, unexpired refresh token,
`POST /auth/refresh` returns 200 with a new access token carrying only the
`{id, email, name}` claims of the refresh token — the `role` claim issued at
login is dropped; every refresh token that fails verification (invalid or
expired) is rejected with 403 and no token is issued. -/
theorem C6_auth_refresh_drops_role (p : TokenPayload) (t : Token) :
    RefreshSpec p t := by
  constructor
  · rfl
  · intro h
    simp [authRefresh, h]

/-- Witness for the amended C6 at a concrete payload and a malformed token. -/
theorem C6_auth_refresh_drops_role_witness :
    RefreshSpec refreshP Token.malformed :=
  C6_auth_refresh_drops_role refreshP Token.malformed

/-- Request body of `POST /jobs` / `PUT /jobs/:id`. -/
structure JobInput where
  title : String
  company : String
  location : String
  experience : String
  education : String
  employmentType : String
  deadline : String
  techStack : List String
  salary : Int
  description : String
  link : String
deriving Repr, DecidableEq

/-- Characters admissible in a URI scheme after the leading letter. -/
def isSchemeChar (c : Char) : Bool :=
  c.isAlphanum || c == '+' || c == '-' || c == '.'

/-- Modelled from the spec: Joi `string().uri()` — well-formed URL check of
the `link` field (an RFC 3986 scheme starting with a letter, a colon and a
non-empty remainder without spaces); the Joi library itself is outside this
repository. -/
def isUri (s : String) : Bool :=
  match s.data with
  | [] => false
  | c :: _ =>
    c.isAlpha &&
      (match s.data.drop (s.data.takeWhile isSchemeChar).length with
       | ':' :: rest => !rest.isEmpty && rest.all (fun ch => ch != ' ')
       | _ => false)

/-- Modelled from the spec: Joi `date().iso()` — ISO date check of the
`deadline` field, here `YYYY-MM-DD`. -/
def isIsoDate (s : String) : Bool :=
  match s.data with
  | [y3, y2, y1, y0, '-', m1, m0, '-', d1, d0] =>
    y3.isDigit && y2.isDigit && y1.isDigit && y0.isDigit &&
      m1.isDigit && m0.isDigit && d1.isDigit && d0.isDigit
  | _ => false

/-- The Joi schema shared by `POST /jobs` and `PUT /jobs/:id`
(`abortEarly: false` collects one message per violated rule; messages are
abbreviated to field tags here). -/
def validateJob (input : JobInput) : List String :=
  (if input.title.length < 3 || input.title.length > 255 then ["title"] else []) ++
  (if input.company.length < 3 || input.company.length > 255 then ["company"] else []) ++
  (if input.location.length < 3 || input.location.length > 255 then ["location"] else []) ++
  (if input.experience.length < 3 || input.experience.length > 255 then ["experience"] else []) ++
  (if input.education.length < 3 || input.education.length > 255 then ["education"] else []) ++
  (if !(["full-time", "part-time", "contract", "internship"].contains input.employmentType)
    then ["employmentType"] else []) ++
  (if !isIsoDate input.deadline then ["deadline"] else []) ++
  (if input.techStack.isEmpty then ["techStack"] else []) ++
  (if input.salary ≤ 0 then ["salary"] else []) ++
  (if input.description.length < 10 then ["description"] else []) ++
  (if !isUri input.link then ["link"] else [])

/-- The updated row `PUT /jobs/:id` persists: every field overwritten from
the body and `views` reset to 0.  The `techStack` array lands in the string
column as its comma-joined form. -/
def editedJob (id : Nat) (input : JobInput) : Job :=
  { id := id
    title := input.title
    company := input.company
    location := input.location
    experience := input.experience
    education := input.education
    employmentType := input.employmentType
    deadline := input.deadline
    techStack := String.intercalate "," input.techStack
    salary := input.salary
    description := input.description
    link := input.link
    views := 0 }

/-- `GET /jobs/:id` (routes/jobs, `router.get('/:id')`): 404 on a miss,
otherwise `job.increment('views')` bumps that row's counter by one.  The
response body (the placeholder-substituted job and the related-jobs
recommendation) is read-only and not part of the stored state. -/
def jobsGetDetail (db : Db) (idParam : Nat) : Resp × Db :=
  match findJob db idParam with
  | none => (⟨404⟩, db)
  | some job =>
    (⟨200⟩,
      { db with
        jobs := db.jobs.map (fun x => if x.id == job.id then { x with views := x.views + 1 } else x) })

/-- `PUT /jobs/:id` (routes/jobs, `router.put('/:id')`): Joi validation
first (400 with the joined messages on any violation), then 404 on a miss,
otherwise every field is overwritten from the body and `views := 0`. -/
def jobsPut (db : Db) (idParam : Nat) (input : JobInput) : Resp × Db :=
  if validateJob input ≠ [] then (⟨400⟩, db)
  else
    match findJob db idParam with
    | none => (⟨404⟩, db)
    | some job =>
      (⟨200⟩,
        { db with jobs := db.jobs.map (fun x => if x.id == job.id then editedJob x.id input else x) })

/-- `POST /jobs` (routes/jobs, `router.post('/')`): Joi validation first
(400, nothing stored), then the new row is inserted with `views: 0`. -/
def jobsPost (db : Db) (input : JobInput) : Resp × Db :=
  if validateJob input ≠ [] then (⟨400⟩, db)
  else
    (⟨201⟩,
      { db with
        jobs := db.jobs ++ [editedJob db.nextJobId input],
        nextJobId := db.nextJobId + 1 })

/-- The JS guard `if (rating < 1 || rating > 5)` of `POST /jobreviews`: an
absent rating compares as `undefined` (NaN), making both comparisons false. -/
def ratingOutOfRange (rating : Option Int) : Bool :=
  match rating with
  | none => false
  | some r => decide (r < 1) || decide (r > 5)

/-- `JobReview.create(...)`: the Sequelize model validation of the JobReview
model — `rating` is NOT NULL with `min: 1, max: 5`, `jobId` is NOT NULL — runs
at insert time; a violation raises, which the handler's catch maps to 500. -/
def jobReviewCreate (db : Db) (jobId : Option Nat) (uid : Nat)
    (txt : Option String) (rating : Option Int) : Except String Db :=
  match rating with
  | none => .error "notNull violation: rating"
  | some r =>
    if r < 1 ∨ 5 < r then .error "validation: rating out of range"
    else
      match jobId with
      | none => .error "notNull violation: jobId"
      | some j =>
        .ok
          { db with
            reviews := db.reviews ++ [⟨db.nextReviewId, j, uid, r, txt⟩],
            nextReviewId := db.nextReviewId + 1 }

/-- Reply of `POST /jobreviews`; `reachedCreate` records whether control
passed the handler's rating guard and attempted the insert. -/
structure ReviewResult where
  resp : Resp
  db : Db
  reachedCreate : Bool
deriving Repr, DecidableEq

/-- `POST /jobreviews` (routes/jobreview, `router.post('/')`). -/
def jobreviewsPost (db : Db) (uid : Nat) (jobId : Option Nat)
    (txt : Option String) (rating : Option Int) : ReviewResult :=
  if ratingOutOfRange rating then ⟨⟨400⟩, db, false⟩
  else
    match jobReviewCreate db jobId uid txt rating with
    | .ok db2 => ⟨⟨201⟩, db2, true⟩
    | .error _ => ⟨⟨500⟩, db, true⟩

/-- The C7 property of `GET /jobs/:id`. -/
def ViewIncrementSpec (db : Db) (idParam : Nat) : Prop :=
  (findJob db idParam = none → jobsGetDetail db idParam = (⟨404⟩, db)) ∧
  (∀ job, findJob db idParam = some job →
    (jobsGetDetail db idParam).1 = ⟨200⟩ ∧
    { job with views := job.views + 1 } ∈ (jobsGetDetail db idParam).2.jobs ∧
    (∀ x ∈ db.jobs, x.id ≠ job.id → x ∈ (jobsGetDetail db idParam).2.jobs) ∧
    (jobsGetDetail db idParam).2.jobs.length = db.jobs.length ∧
    (jobsGetDetail db idParam).2.apps = db.apps ∧
    (jobsGetDetail db idParam).2.users = db.users ∧
    (jobsGetDetail db idParam).2.interviews = db.interviews ∧
    (jobsGetDetail db idParam).2.reviews = db.reviews)

/-- The C7 property of `PUT /jobs/:id`. -/
def EditResetsViewsSpec (db : Db) (idParam : Nat) (input : JobInput) : Prop :=
  validateJob input = [] →
    ∀ job, findJob db idParam = some job →
      (jobsPut db idParam input).1 = ⟨200⟩ ∧
      editedJob job.id input ∈ (jobsPut db idParam input).2.jobs ∧
      (editedJob job.id input).views = 0 ∧
      (∀ x ∈ db.jobs, x.id ≠ job.id → x ∈ (jobsPut db idParam input).2.jobs)

/-- C7: each `GET /jobs/:id` call on an existing job bumps exactly that
job's `views` by 1 leaving all its other fields and every other row
unchanged, and every successful `PUT /jobs/:id` stores the edited row with
`views = 0` regardless of the prior counter. -/
theorem C7_views_increment_and_reset (db : Db) (idParam : Nat) (input : JobInput) :
    ViewIncrementSpec db idParam ∧ EditResetsViewsSpec db idParam input := by
  constructor
  · constructor
    · intro h
      simp [jobsGetDetail, h]
    · intro job hj
      have hmem := List.mem_of_find?_eq_some hj
      have heq : jobsGetDetail db idParam =
          (⟨200⟩,
            { db with
              jobs := db.jobs.map (fun x => if x.id == job.id then { x with views := x.views + 1 } else x) }) := by
        simp [jobsGetDetail, hj]
      rw [heq]
      refine ⟨rfl, ?_, ?_, by simp, rfl, rfl, rfl, rfl⟩
      · exact List.mem_map.mpr ⟨job, hmem, by simp⟩
      · intro x hx hne
        refine List.mem_map.mpr ⟨x, hx, ?_⟩
        have : (x.id == job.id) = false := beq_eq_false_iff_ne.mpr hne
        simp [this]
  · intro hval job hj
    have hmem := List.mem_of_find?_eq_some hj
    have heq : jobsPut db idParam input =
        (⟨200⟩,
          { db with jobs := db.jobs.map (fun x => if x.id == job.id then editedJob x.id input else x) }) := by
      simp [jobsPut, hval, hj]
    rw [heq]
    refine ⟨rfl, ?_, rfl, ?_⟩
    · exact List.mem_map.mpr ⟨job, hmem, by simp⟩
    · intro x hx hne
      refine List.mem_map.mpr ⟨x, hx, ?_⟩
      have : (x.id == job.id) = false := beq_eq_false_iff_ne.mpr hne
      simp [this]

/-- A body that passes the whole Joi schema. -/
def goodInput : JobInput :=
  { title := "Backend engineer"
    company := "ACME Corp"
    location := "Seoul, KR"
    experience := "3+ years"
    education := "BSc or higher"
    employmentType := "full-time"
    deadline := "2025-12-31"
    techStack := ["node"]
    salary := 5000
    description := "Build and run the backend."
    link := "https://acme.example/jobs/1" }

/-- Witness for C7 at the concrete store `db0` (job 1 exists). -/
theorem C7_views_increment_and_reset_witness :
    ViewIncrementSpec db0 1 ∧ EditResetsViewsSpec db0 1 goodInput :=
  C7_views_increment_and_reset db0 1 goodInput

/-- C8: a `POST /jobs` whose `link` fails the URI check is answered 400 with
the store unchanged (no row persisted), and a `POST /jobreviews` whose
numeric rating lies outside [1,5] is answered 400 with the store unchanged
and the insert never attempted. -/
theorem C8_invalid_link_and_rating_rejected
    (db : Db) (input : JobInput) (uid : Nat) (jobId : Option Nat)
    (txt : Option String) (r : Int)
    (hlink : isUri input.link = false) (hr : r < 1 ∨ 5 < r) :
    jobsPost db input = (⟨400⟩, db) ∧
      jobreviewsPost db uid jobId txt (some r) = ⟨⟨400⟩, db, false⟩ := by
  constructor
  · have hvne : validateJob input ≠ [] := by
      intro hnil
      have : "link" ∈ validateJob input := by
        unfold validateJob
        simp [hlink]
      rw [hnil] at this
      exact absurd this (List.not_mem_nil _)
    simp [jobsPost, hvne]
  · have hguard : ratingOutOfRange (some r) = true := by
      rcases hr with h | h <;> simp [ratingOutOfRange, h]
    simp [jobreviewsPost, hguard]

/-- Witness for C8 at a concrete malformed link and an out-of-range rating. -/
theorem C8_invalid_link_and_rating_rejected_witness :
    isUri "not a url" = false ∧ ((7 : Int) < 1 ∨ 5 < (7 : Int)) ∧
      (jobsPost db0 { goodInput with link := "not a url" } = (⟨400⟩, db0) ∧
        jobreviewsPost db0 1 (some 1) none (some 7) = ⟨⟨400⟩, db0, false⟩) :=
  ⟨by decide, by decide,
    C8_invalid_link_and_rating_rejected db0 { goodInput with link := "not a url" } 1 (some 1)
      none 7 (by decide) (by decide)⟩

/-- C10: a request without a rating satisfies neither comparison of the
guard `rating < 1 || rating > 5`, so it is not rejected with the handler's
400 and control reaches the `JobReview.create` call. -/
theorem C10_missing_rating_passes_guard
    (db : Db) (uid : Nat) (jobId : Option Nat) (txt : Option String) :
    ratingOutOfRange none = false ∧
      (jobreviewsPost db uid jobId txt none).reachedCreate = true ∧
      (jobreviewsPost db uid jobId txt none).resp.code ≠ 400 := by
  refine ⟨rfl, ?_, ?_⟩ <;> simp [jobreviewsPost, ratingOutOfRange, jobReviewCreate]

/-- Digit value of a decimal character. -/
def digitVal (c : Char) : Nat := c.toNat - '0'.toNat

/-- `parseInt(run, 10)` of a digit run. -/
def digitsToNat (ds : List Char) : Nat :=
  ds.foldl (fun acc c => acc * 10 + digitVal c) 0

/-- Two-digit value (`MM` / `DD`) of the absolute-deadline pattern. -/
def digit2 (a b : Char) : Nat := digitVal a * 10 + digitVal b

/-- Greedy `\d+` anchored at the current position. -/
def digitRun (l : List Char) : Option Nat :=
  match l with
  | [] => none
  | m :: rest =>
    if m.isDigit then some (digitsToNat ((m :: rest).takeWhile Char.isDigit)) else none

/-- `/D-?(\d+)/` anchored at the current position: a literal `D`, an optional
`-`, then the maximal digit run (no digit after the optional `-` means no
match, exactly as the regex backtracks and fails). -/
def dDayAt : List Char → Option Nat
  | [] => none
  | c :: rest =>
    if c = 'D' then
      match rest with
      | [] => none
      | h :: t => if h = '-' then digitRun t else digitRun (h :: t)
    else none

/-- Leftmost match of `/D-?(\d+)/` (`deadline.match(...)`). -/
def findDDay : List Char → Option Nat
  | [] => none
  | c :: rest =>
    match dDayAt (c :: rest) with
    | some n => some n
    | none => findDDay rest

/-- `/~(\d{2})\.(\d{2})\((.)\)/` anchored at the current position. -/
def tildeAt (l : List Char) : Option (Nat × Nat) :=
  match l with
  | t :: m1 :: m0 :: dot :: d1 :: d0 :: lp :: _w :: rp :: _ =>
    if t == '~' && m1.isDigit && m0.isDigit && dot == '.' && d1.isDigit && d0.isDigit &&
        lp == '(' && rp == ')' then
      some (digit2 m1 m0, digit2 d1 d0)
    else none
  | _ => none

/-- Leftmost match of `/~(\d{2})\.(\d{2})\((.)\)/`. -/
def findTilde : List Char → Option (Nat × Nat)
  | [] => none
  | c :: rest =>
    match tildeAt (c :: rest) with
    | some r => some r
    | none => findTilde rest

/-- Civil (year, month, day) of an epoch-day count in the proleptic Gregorian
calendar, days counted from 1970-01-01 — the normalization JS `Date` applies
under UTC. -/
def civilFromDays (z0 : Int) : Int × Int × Int :=
  let z := z0 + 719468
  let era := Int.fdiv z 146097
  let doe := z - era * 146097
  let yoe := Int.fdiv (doe - Int.fdiv doe 1460 + Int.fdiv doe 36524 - Int.fdiv doe 146096) 365
  let y := yoe + era * 400
  let doy := doe - (365 * yoe + Int.fdiv yoe 4 - Int.fdiv yoe 100)
  let mp := Int.fdiv (5 * doy + 2) 153
  let d := doy - Int.fdiv (153 * mp + 2) 5 + 1
  let m := mp + (if mp < 10 then 3 else -9)
  (y + (if m ≤ 2 then 1 else 0), m, d)

/-- `today.getFullYear()` for an epoch-day count. -/
def yearOf (z : Int) : Int := (civilFromDays z).1

/-- Epoch-day count of a civil date — `new Date(year, month - 1, day)`
normalized the way `toISOString` reports it. -/
def daysFromCivil (y m d : Int) : Int :=
  let y1 := y - (if m ≤ 2 then 1 else 0)
  let era := Int.fdiv y1 400
  let yoe := y1 - era * 400
  let mp := m + (if 2 < m then -3 else 9)
  let doy := Int.fdiv (153 * mp + 2) 5 + d - 1
  let doe := yoe * 365 + Int.fdiv yoe 4 - Int.fdiv yoe 100 + doy
  era * 146097 + doe - 719468

/-- `formatDeadline` (crawler, services/crawl_saramin).  `today` is the
current date as an epoch-day count and the result the stored deadline date.
The `D` branch performs `today.setDate(today.getDate() - n)`; the `~MM.DD(w)`
branch builds `new Date(today.getFullYear(), MM - 1, DD)`; anything else
yields `null`. -/
def formatDeadline (today : Int) (s : List Char) : Option Int :=
  match findDDay s with
  | some n => some (today - (n : Int))
  | none =>
    match findTilde s with
    | some (m, d) => some (daysFromCivil (yearOf today) (m : Int) (d : Int))
    | none => none

theorem takeWhile_eq_self_of_all {α : Type} (p : α → Bool) (l : List α)
    (h : ∀ c ∈ l, p c = true) : l.takeWhile p = l := by
  induction l with
  | nil => rfl
  | cons a t ih =>
    rw [List.takeWhile_cons, h a (List.mem_cons_self a t)]
    simp [ih (fun c hc => h c (List.mem_cons_of_mem a hc))]

theorem isDigit_ne_D {c : Char} (h : c.isDigit = true) : ¬ c = 'D' := by
  intro hc
  subst hc
  exact absurd h (by decide)

theorem dDayAt_cons_ne {c : Char} (rest : List Char) (h : ¬ c = 'D') :
    dDayAt (c :: rest) = none := by
  simp [dDayAt, h]

theorem findDDay_cons_none {c : Char} {rest : List Char}
    (h : dDayAt (c :: rest) = none) : findDDay (c :: rest) = findDDay rest := by
  simp only [findDDay, h]

/-- C9: `formatDeadline` sends `"D-" ++ digits` to the date that many days
BEFORE today (a subtraction — the computed deadline lies in the past for any
positive countdown), sends `"~MM.DD(w)"` to month MM, day DD of today's
year, and yields `null` on every string matching neither pattern. -/
theorem C9_formatDeadline_normalization (today : Int) :
    (∀ ds : List Char, ds ≠ [] → (∀ c ∈ ds, c.isDigit = true) →
      formatDeadline today ('D' :: '-' :: ds) = some (today - (digitsToNat ds : Int)) ∧
      (0 < digitsToNat ds → today - (digitsToNat ds : Int) < today)) ∧
    (∀ m1 m0 d1 d0 w : Char, m1.isDigit = true → m0.isDigit = true →
      d1.isDigit = true → d0.isDigit = true →
      formatDeadline today ['~', m1, m0, '.', d1, d0, '(', w, ')'] =
        some (daysFromCivil (yearOf today) (digit2 m1 m0 : Int) (digit2 d1 d0 : Int))) ∧
    (∀ s : List Char, findDDay s = none → findTilde s = none →
      formatDeadline today s = none) := by
  refine ⟨?_, ?_, ?_⟩
  · intro ds hne hdig
    obtain ⟨m, t, rfl⟩ := List.exists_cons_of_ne_nil hne
    have hm : m.isDigit = true := hdig m (List.mem_cons_self m t)
    have htake : (m :: t).takeWhile Char.isDigit = m :: t :=
      takeWhile_eq_self_of_all _ _ hdig
    have hdd : dDayAt ('D' :: '-' :: m :: t) = some (digitsToNat (m :: t)) := by
      simp [dDayAt, digitRun, hm, htake]
    have hfd : findDDay ('D' :: '-' :: m :: t) = some (digitsToNat (m :: t)) := by
      simp only [findDDay, hdd]
    refine ⟨by simp [formatDeadline, hfd], ?_⟩
    intro hpos
    omega
  · intro m1 m0 d1 d0 w hm1 hm0 hd1 hd0
    have e1 : dDayAt ('~' :: [m1, m0, '.', d1, d0, '(', w, ')']) = none :=
      dDayAt_cons_ne _ (by decide)
    have e2 : dDayAt (m1 :: [m0, '.', d1, d0, '(', w, ')']) = none :=
      dDayAt_cons_ne _ (isDigit_ne_D hm1)
    have e3 : dDayAt (m0 :: ['.', d1, d0, '(', w, ')']) = none :=
      dDayAt_cons_ne _ (isDigit_ne_D hm0)
    have e4 : dDayAt ('.' :: [d1, d0, '(', w, ')']) = none :=
      dDayAt_cons_ne _ (by decide)
    have e5 : dDayAt (d1 :: [d0, '(', w, ')']) = none :=
      dDayAt_cons_ne _ (isDigit_ne_D hd1)
    have e6 : dDayAt (d0 :: ['(', w, ')']) = none :=
      dDayAt_cons_ne _ (isDigit_ne_D hd0)
    have e7 : dDayAt ('(' :: [w, ')']) = none :=
      dDayAt_cons_ne _ (by decide)
    have e8 : dDayAt (w :: [')']) = none := by
      by_cases hw : w = 'D'
      · subst hw
        decide
      · exact dDayAt_cons_ne _ hw
    have e9 : dDayAt (')' :: ([] : List Char)) = none :=
      dDayAt_cons_ne _ (by decide)
    have hfdn : findDDay ['~', m1, m0, '.', d1, d0, '(', w, ')'] = none := by
      rw [findDDay_cons_none e1, findDDay_cons_none e2, findDDay_cons_none e3,
        findDDay_cons_none e4, findDDay_cons_none e5, findDDay_cons_none e6,
        findDDay_cons_none e7, findDDay_cons_none e8, findDDay_cons_none e9]
      rfl
    have hta : tildeAt ['~', m1, m0, '.', d1, d0, '(', w, ')'] =
        some (digit2 m1 m0, digit2 d1 d0) := by
      simp [tildeAt, hm1, hm0, hd1, hd0]
    have hft : findTilde ['~', m1, m0, '.', d1, d0, '(', w, ')'] =
        some (digit2 m1 m0, digit2 d1 d0) := by
      simp only [findTilde, hta]
    simp [formatDeadline, hfdn, hft]
  · intro s h1 h2
    simp [formatDeadline, h1, h2]

/-- Witness for C9: "D-3" three days back from epoch day 0, "~12.25(월)" to
December 25 of 1970, and a string matching neither pattern to `null`. -/
theorem C9_formatDeadline_normalization_witness :
    formatDeadline 0 ('D' :: '-' :: ['3']) = some (0 - (3 : Int)) ∧
    formatDeadline 0 ['~', '1', '2', '.', '2', '5', '(', '월', ')'] =
      some (daysFromCivil (yearOf 0) 12 25) ∧
    formatDeadline 0 "hello".data = none := by
  obtain ⟨ha, hb, hc⟩ := C9_formatDeadline_normalization 0
  refine ⟨?_, ?_, ?_⟩
  · exact (ha ['3'] (by decide) (by decide)).1
  · exact hb '1' '2' '2' '5' '월' (by decide) (by decide) (by decide) (by decide)
  · exact hc "hello".data (by decide) (by decide)

end Saramin
